import Mathlib

/-!
Shallow embedding of the knowledge_ai_bot chat runtime, checked against its
natural-language specification.

The embedding covers:
* the client reconciliation state machine of `useChat`
  (src/frontend/src/hooks/useChat.ts): `delta` / `done` / `error` frame
  handling, `sendMessage`, and the conversation-initialisation effect;
* the `InputBox.handleSend` guard
  (src/frontend/src/components/core/InputBox.tsx);
* the HTTP request interceptor (src/frontend/src/services/api.ts) together
  with `storage.isTokenExpired` (LocalStorage utility);
* the backend `ConfigLoader.load_yaml`, `_expand_env_vars`, and
  `ToolLoader.load_tools_for_domain` as given in the architecture document
  (src/unnamed/part_008).

JavaScript / Python string primitives used by the source (`trim`,
`startswith`, `replace`, `parseInt`, `re.findall`, `sorted`) are modelled
explicitly on `List Char` so that every definition evaluates by kernel
reduction.
-/

/-! ## String primitives -/

/-- Model of JavaScript `String.prototype.trim`: drop whitespace from both
ends. -/
def jsTrim (s : String) : String :=
  ⟨((s.data.dropWhile Char.isWhitespace).reverse.dropWhile Char.isWhitespace).reverse⟩

/-- Fuel-driven worker for `pyStrReplace`.  The fuel starts at the length of
the subject string and strictly dominates it, so the fuel never runs out. -/
def replaceAllAux (pat rep : List Char) : Nat → List Char → List Char
  | 0, s => s
  | _ + 1, [] => []
  | fuel + 1, c :: rest =>
    if pat ≠ [] ∧ pat.isPrefixOf (c :: rest) then
      rep ++ replaceAllAux pat rep fuel ((c :: rest).drop pat.length)
    else
      c :: replaceAllAux pat rep fuel rest

/-- Model of Python `str.replace` (and of the replacement loop of
`_expand_env_vars`): replace every non-overlapping occurrence of `pat`,
scanning left to right.  (The empty pattern, unreachable in the source, is a
no-op here.) -/
def pyStrReplace (s pat rep : String) : String :=
  ⟨replaceAllAux pat.data rep.data s.data.length s.data⟩

/-- Digit-prefix value used by `jsParseInt`. -/
def digitsVal (ds : List Char) : Nat :=
  ds.foldl (fun acc c => acc * 10 + (c.toNat - 48)) 0

/-- Model of JavaScript `parseInt(s, 10)`: skip leading whitespace, read an
optional sign and a digit prefix; `none` models `NaN`. -/
def jsParseInt (s : String) : Option Int :=
  let cs := s.data.dropWhile Char.isWhitespace
  let signAndRest : Int × List Char :=
    match cs with
    | '-' :: r => (-1, r)
    | '+' :: r => (1, r)
    | _ => (1, cs)
  let ds := signAndRest.2.takeWhile Char.isDigit
  if ds.isEmpty then none else some (signAndRest.1 * Int.ofNat (digitsVal ds))

/-- Code-point comparison on character lists; the order Python's `sorted`
uses on strings. -/
def strLeChars : List Char → List Char → Bool
  | [], _ => true
  | _ :: _, [] => false
  | a :: as, b :: bs => if a = b then strLeChars as bs else decide (a < b)

/-- Python string ordering (lexicographic by code point). -/
def pyStrLe (a b : String) : Bool :=
  strLeChars a.data b.data

/-- Model of Python `name.startswith('_')`. -/
def pyStartsWithUnderscore (n : String) : Bool :=
  match n.data with
  | c :: _ => c = '_'
  | [] => false

/-! ## Client reconciliation state machine (useChat.ts) -/

/-- Message role, as in src/frontend/src/types. -/
inductive Role where
  | user
  | assistant
deriving DecidableEq

/-- A transcript entry as held in the `messages` state of `useChat`. -/
structure Message where
  id : String
  role : Role
  content : String
  timestamp : Nat
deriving DecidableEq

/-- The mutable state of the `useChat` hook: the transcript, the streaming
flag, the two refs accumulating the in-progress assistant message, the
WebSocket ref (`none` = no socket; `some b` = a socket whose
`readyState == OPEN` equals `b`), and the log of payload texts sent over the
socket. -/
structure ChatState where
  messages : List Message
  isStreaming : Bool
  currentMessage : String
  currentMessageId : String
  ws : Option Bool
  sentFrames : List String
deriving DecidableEq

/-- The `delta` branch of `ws.onmessage` in useChat.ts: accumulate the
fragment into `currentMessageRef`; if the last transcript entry is the
current provisional entry, overwrite its content in place, otherwise append
a fresh provisional assistant entry whose id is `assistant-` + `Date.now()`. -/
def handleDelta (now : Nat) (content : String) (s : ChatState) : ChatState :=
  let currentMessage := s.currentMessage ++ content
  match s.messages.getLast? with
  | some lastMessage =>
    if lastMessage.id = s.currentMessageId then
      { s with
        messages := s.messages.dropLast ++ [{ lastMessage with content := currentMessage }],
        currentMessage := currentMessage }
    else
      { s with
        messages := s.messages ++
          [⟨"assistant-" ++ toString now, Role.assistant, currentMessage, now⟩],
        currentMessage := currentMessage,
        currentMessageId := "assistant-" ++ toString now }
  | none =>
    { s with
      messages := s.messages ++
        [⟨"assistant-" ++ toString now, Role.assistant, currentMessage, now⟩],
      currentMessage := currentMessage,
      currentMessageId := "assistant-" ++ toString now }

/-- The `done` branch of `ws.onmessage`: stop streaming and clear both refs. -/
def handleDone (s : ChatState) : ChatState :=
  { s with isStreaming := false, currentMessage := "", currentMessageId := "" }

/-- The `error` branch of `ws.onmessage`: stop streaming, clear both refs,
and append a fresh `error-` + `Date.now()` assistant entry carrying the
error text. -/
def handleError (now : Nat) (msg : String) (s : ChatState) : ChatState :=
  { s with
    isStreaming := false,
    currentMessage := "",
    currentMessageId := "",
    messages := s.messages ++
      [⟨"error-" ++ toString now, Role.assistant,
        "❌ エラーが発生しました: " ++ msg, now⟩] }

/-- Fold a sequence of `delta` frames (timestamp, fragment) through the
state machine. -/
def processDeltas (ds : List (Nat × String)) (s : ChatState) : ChatState :=
  ds.foldl (fun st p => handleDelta p.1 p.2 st) s

/-- Concatenation of the fragments of a frame sequence, in arrival order. -/
def fragsConcat (ds : List (Nat × String)) : String :=
  ds.foldl (fun acc p => acc ++ p.2) ""

/-- Model of `sendMessage` in useChat.ts: empty (after trimming) input, a missing
socket, or an active stream aborts; a non-OPEN socket aborts; otherwise the
user message is appended, streaming starts, the refs are cleared, and the
payload is sent. -/
def sendMessage (now : Nat) (text : String) (s : ChatState) : ChatState :=
  if jsTrim text = "" ∨ s.ws = none ∨ s.isStreaming = true then s
  else
    match s.ws with
    | none => s
    | some wsOpen =>
      if wsOpen = false then s
      else
        { s with
          messages := s.messages ++ [⟨"user-" ++ toString now, Role.user, text, now⟩],
          isStreaming := true,
          currentMessage := "",
          currentMessageId := "",
          sentFrames := s.sentFrames ++ [text] }

/-- Model of `handleSend` in InputBox.tsx: returns the message handed to `onSend`,
if any. -/
def handleSend (input : String) (disabled : Bool) : Option String :=
  if jsTrim input ≠ "" ∧ disabled = false then some (jsTrim input) else none

/-- A message DTO as returned by `conversationsService.getConversation`. -/
structure MessageDto where
  message_id : String
  role : Role
  content : String
  created_at : Nat
deriving DecidableEq

/-- Result of the conversation-initialisation effect: the conversation id
that was set, the restored transcript, and whether a `createConversation`
request was issued. -/
structure InitResult where
  conversationId : Option String
  messages : List Message
  createCalled : Bool
deriving DecidableEq

/-- The `initConversation` effect of useChat.ts.  `getConv` models
`conversationsService.getConversation` (`none` = request failed) and
`createConv` models `conversationsService.createConversation` applied to
`(domain, title)` (`some id` = created conversation id, `none` = request
failed). -/
def initConversation (getConv : String → Option (List MessageDto))
    (createConv : String → String → Option String)
    (urlParam : Option String) : InitResult :=
  match urlParam with
  | some conversationIdFromUrl =>
    match getConv conversationIdFromUrl with
    | some msgs =>
      { conversationId := some conversationIdFromUrl,
        messages := msgs.map (fun m => ⟨m.message_id, m.role, m.content, m.created_at⟩),
        createCalled := false }
    | none =>
      { conversationId := some conversationIdFromUrl,
        messages := [],
        createCalled := false }
  | none =>
    match createConv "horse-racing" "新しい会話" with
    | some newId =>
      { conversationId := some newId, messages := [], createCalled := true }
    | none =>
      { conversationId := none, messages := [], createCalled := true }

/-! ## HTTP client token handling (api.ts, storage utility) -/

/-- The LocalStorage slots the token logic reads. -/
structure LocalStore where
  access_token : Option String
  token_expires_at : Option String
deriving DecidableEq

/-- Model of `storage.isTokenExpired`: a missing (or empty, hence falsy) stored
expiry is expired; otherwise compare `Date.now()` with the parsed value
(`Date.now() > NaN` is `false` in JavaScript). -/
def isTokenExpired (st : LocalStore) (now : Int) : Bool :=
  match st.token_expires_at with
  | none => true
  | some expiresAt =>
    if expiresAt = "" then true
    else
      match jsParseInt expiresAt with
      | none => false
      | some e => now > e

/-- The request interceptor of api.ts: attach `Authorization: Bearer`
exactly when a truthy token is stored and it is not expired.  Returns the
header value, if attached. -/
def attachAuthHeader (st : LocalStore) (now : Int) : Option String :=
  match st.access_token with
  | none => none
  | some token =>
    if token = "" then none
    else if isTokenExpired st now then none
    else some ("Bearer " ++ token)

/-! ## ToolLoader (src/unnamed/part_008, load_tools_for_domain) -/

/-- A Python module attribute: its name and whether `callable(obj)` holds. -/
structure PyAttr where
  name : String
  callable : Bool
deriving DecidableEq

/-- A Python module as seen by the loader: its attribute table. -/
structure PyModule where
  attrs : List PyAttr
deriving DecidableEq

/-- Model of Python `dir(module)`: the attribute names, sorted
alphabetically (by code point). -/
def pyDir (m : PyModule) : List String :=
  (m.attrs.map PyAttr.name).insertionSort (fun a b => pyStrLe a b = true)

/-- Model of `callable(getattr(module, name))`. -/
def getattrCallable (m : PyModule) (n : String) : Bool :=
  match m.attrs.find? (fun a => a.name = n) with
  | some a => a.callable
  | none => false

/-- Model of `ToolLoader.load_tools_for_domain`.  Here `modules` models
`importlib.import_module` (`none` = `ImportError`).  The first component is
the returned tool list (by attribute name); the second is the list of
warnings recorded while loading — the source logs none, so it is constantly
empty. -/
def load_tools_for_domain (modules : String → Option PyModule)
    (domain_id : String) : List String × List String :=
  let module_name := "app.domains." ++ pyStrReplace domain_id "-" "_" ++ ".tools"
  match modules module_name with
  | none => ([], [])
  | some module' =>
    ((pyDir module').filter
      (fun name => getattrCallable module' name && !(pyStartsWithUnderscore name)), [])

/-! ## ConfigLoader (src/unnamed/part_008, load_yaml and _expand_env_vars) -/

/-- Fuel-driven scan for `re.findall(r'\$\x7b([^\x7d]+)\x7d', obj)`: the
captured variable names of every placeholder, left to right,
non-overlapping.  The fuel starts at the length of the scanned list and
strictly dominates it. -/
def findPlaceholdersAux : Nat → List Char → List String
  | 0, _ => []
  | _ + 1, [] => []
  | fuel + 1, c :: rest =>
    if c = '$' then
      match rest with
      | '\x7b' :: rest2 =>
        let inner := rest2.takeWhile (fun ch => ch ≠ '\x7d')
        if inner.isEmpty then findPlaceholdersAux fuel rest
        else
          match rest2.drop inner.length with
          | '\x7d' :: tail => ⟨inner⟩ :: findPlaceholdersAux fuel tail
          | _ => findPlaceholdersAux fuel rest
      | _ => findPlaceholdersAux fuel rest
    else findPlaceholdersAux fuel rest

/-- The placeholder variable names occurring in `s`. -/
def findPlaceholders (s : String) : List String :=
  findPlaceholdersAux s.data.length s.data

/-- Python `os.getenv(name, default)` over an environment `env`. -/
def pyGetenv (env : String → Option String) (name default : String) : String :=
  match env name with
  | some v => v
  | none => default

/-- Model of `_expand_env_vars` on a string: for each captured variable name, replace
every occurrence of its placeholder by `os.getenv(name, name)` — the
variable's value if provided, otherwise the bare variable name. -/
def expand_env_vars (env : String → Option String) (s : String) : String :=
  (findPlaceholders s).foldl
    (fun obj m => pyStrReplace obj ("$\x7b" ++ m ++ "\x7d") (pyGetenv env m m)) s

/-- A document shape covering every placeholder-bearing text: an
alternation of literal segments and placeholders `(lit, name)` rendered as
`lit` followed by the placeholder of `name`, closed by a trailing literal. -/
def renderTemplate : List (String × String) → String → String
  | [], tail => tail
  | (lit, name) :: rest, tail =>
    lit ++ "$\x7b" ++ name ++ "\x7d" ++ renderTemplate rest tail

/-- The per-placeholder expected expansion: every placeholder is replaced by
`os.getenv(name, name)` — the provided value, or the bare name. -/
def expandTemplate (env : String → Option String) :
    List (String × String) → String → String
  | [], tail => tail
  | (lit, name) :: rest, tail =>
    lit ++ pyGetenv env name name ++ expandTemplate env rest tail

/-- Hygiene of a template: literal segments carry no `$` (so they contain no
placeholder syntax), placeholder names are nonempty and free of `$` and of
the closing brace, and no two placeholders share a name. -/
def templateOk (ps : List (String × String)) (tail : String) : Prop :=
  (∀ p ∈ ps, '$' ∉ p.1.data ∧ p.2 ≠ "" ∧ '$' ∉ p.2.data ∧ '\x7d' ∉ p.2.data) ∧
    '$' ∉ tail.data ∧ (ps.map Prod.snd).Nodup

/-- Hygiene of the environment for a template: each replacement value used
(the provided value, or the bare name) is itself free of `$`. -/
def envOk (env : String → Option String) (ps : List (String × String)) : Prop :=
  ∀ p ∈ ps, '$' ∉ (pyGetenv env p.2 p.2).data

/-- The `_cache` of `ConfigLoader`. -/
structure ConfigLoader where
  cache : List (String × String)
deriving DecidableEq

/-- Model of `ConfigLoader.load_yaml`: answer from the cache if possible; otherwise
read the file (`none` = `open` raised), expand environment variables,
resolve intra-configuration references, fill the cache and return.  The
configuration document is modelled as its text; `resolveRefs` abstracts
`_resolve_references`, whose body the architecture document does not give. -/
def load_yaml (resolveRefs : String → String) (fs : String → Option String)
    (env : String → Option String) (self : ConfigLoader) (filename : String) :
    Option (String × ConfigLoader) :=
  match self.cache.lookup filename with
  | some config => some (config, self)
  | none =>
    match fs filename with
    | none => none
    | some raw =>
      let config := resolveRefs (expand_env_vars env raw)
      some (config, ⟨(filename, config) :: self.cache⟩)

/-! ## Helper lemmas -/

lemma fragsConcat_acc (ds : List (Nat × String)) :
    ∀ x : String, ds.foldl (fun acc p => acc ++ p.2) x = x ++ fragsConcat ds := by
  induction ds with
  | nil => intro x; simp [fragsConcat, String.append_empty]
  | cons d ds ih =>
    intro x
    have h1 : ((d :: ds).foldl (fun acc p => acc ++ p.2) x) =
        ds.foldl (fun acc p => acc ++ p.2) (x ++ d.2) := rfl
    have h2 : fragsConcat (d :: ds) = ds.foldl (fun acc p => acc ++ p.2) ("" ++ d.2) := rfl
    rw [h1, ih (x ++ d.2), h2, String.empty_append, ih d.2, String.append_assoc]

lemma fragsConcat_cons (d : Nat × String) (ds : List (Nat × String)) :
    fragsConcat (d :: ds) = d.2 ++ fragsConcat ds := by
  have h : fragsConcat (d :: ds) = ds.foldl (fun acc p => acc ++ p.2) ("" ++ d.2) := rfl
  rw [h, String.empty_append, fragsConcat_acc ds d.2]

lemma processDeltas_mutate (ds : List (Nat × String)) :
    ∀ (base : List Message) (e : Message) (s : ChatState),
    s.messages = base ++ [e] → s.currentMessageId = e.id → s.currentMessage = e.content →
    (processDeltas ds s).messages = base ++ [{ e with content := e.content ++ fragsConcat ds }] := by
  induction ds with
  | nil =>
    intro base e s hmsgs _ _
    simpa [processDeltas, fragsConcat, String.append_empty] using hmsgs
  | cons d ds ih =>
    intro base e s hmsgs hid hcur
    obtain ⟨now, c⟩ := d
    have hstep : handleDelta now c s =
        { s with
          messages := base ++ [{ e with content := e.content ++ c }],
          currentMessage := e.content ++ c } := by
      unfold handleDelta
      rw [hmsgs, List.getLast?_concat]
      simp [hid.symm, List.dropLast_concat, hcur]
    have hfold : processDeltas ((now, c) :: ds) s = processDeltas ds (handleDelta now c s) := rfl
    rw [hfold, ih base { e with content := e.content ++ c } (handleDelta now c s)
      (by rw [hstep]) (by rw [hstep, hid]) (by rw [hstep])]
    rw [fragsConcat_cons]
    simp [String.append_assoc]

/-! ## Claim theorems -/

/-- Claim C1: within one turn (streaming just started: the accumulator ref is
empty and no transcript entry carries the current provisional id), the first
`delta` frame appends exactly one provisional assistant entry at the end of
the transcript, every later `delta` mutates that same entry in place, and
after the last frame the entry's content is the concatenation of all
fragments in arrival order. -/
theorem delta_frames_grow_single_provisional_entry
    (s : ChatState) (d : Nat × String) (ds : List (Nat × String))
    (hlast : (s.messages.getLast?.all fun m => m.id != s.currentMessageId) = true)
    (hcur : s.currentMessage = "") :
    (processDeltas (d :: ds) s).messages =
      s.messages ++ [⟨"assistant-" ++ toString d.1, Role.assistant, fragsConcat (d :: ds), d.1⟩] := by
  obtain ⟨now, c⟩ := d
  have hstep : handleDelta now c s =
      { s with
        messages := s.messages ++ [⟨"assistant-" ++ toString now, Role.assistant, c, now⟩],
        currentMessage := c,
        currentMessageId := "assistant-" ++ toString now } := by
    unfold handleDelta
    cases h : s.messages.getLast? with
    | none => simp [hcur, String.empty_append]
    | some m =>
      have hne : m.id ≠ s.currentMessageId := by
        have hall := hlast
        rw [h, Option.all_some] at hall
        exact bne_iff_ne.mp hall
      simp [hne, hcur, String.empty_append]
  have hfold : processDeltas ((now, c) :: ds) s = processDeltas ds (handleDelta now c s) := rfl
  rw [hfold, processDeltas_mutate ds s.messages
    ⟨"assistant-" ++ toString now, Role.assistant, c, now⟩ (handleDelta now c s)
    (by rw [hstep]) (by rw [hstep]) (by rw [hstep]), fragsConcat_cons]

/-- Witness for C1 at a concrete post-`sendMessage` state and two deltas. -/
theorem delta_frames_grow_single_provisional_entry_witness :
    (processDeltas [(1, "Hel"), (2, "lo")]
        ⟨[⟨"user-0", Role.user, "hi", 0⟩], true, "", "", some true, ["hi"]⟩).messages =
      [⟨"user-0", Role.user, "hi", 0⟩] ++
        [⟨"assistant-" ++ toString (1 : Nat), Role.assistant,
          fragsConcat [(1, "Hel"), (2, "lo")], 1⟩] :=
  delta_frames_grow_single_provisional_entry
    ⟨[⟨"user-0", Role.user, "hi", 0⟩], true, "", "", some true, ["hi"]⟩
    (1, "Hel") [(2, "lo")] (by decide) rfl

/-- Claim C2 counterexample: with no conversation identifier supplied, the
initialisation effect of the chat hook itself issues a `createConversation`
request — a Conversation record comes into existence although no user
message has been sent yet. -/
theorem conversation_created_eagerly_counterexample :
    (initConversation (fun _ => none) (fun _ _ => some "conv-1") none).createCalled = true ∧
    (initConversation (fun _ => none) (fun _ _ => some "conv-1") none).conversationId
      = some "conv-1" := by
  decide

/-- Claim C2 amended: when no conversation identifier is supplied, a new
Conversation is created eagerly during chat initialisation, before any user
message; when an identifier is supplied, no Conversation is created and the
existing conversation's messages are restored in order. -/
theorem conversation_init_creates_eagerly
    (getConv : String → Option (List MessageDto))
    (createConv : String → String → Option String) :
    ((initConversation getConv createConv none).createCalled = true) ∧
    (∀ cid, (initConversation getConv createConv (some cid)).createCalled = false ∧
      (initConversation getConv createConv (some cid)).conversationId = some cid ∧
      (initConversation getConv createConv (some cid)).messages =
        (match getConv cid with
         | some msgs => msgs.map (fun m => ⟨m.message_id, m.role, m.content, m.created_at⟩)
         | none => [])) := by
  constructor
  · unfold initConversation
    cases createConv "horse-racing" "新しい会話" <;> rfl
  · intro cid
    unfold initConversation
    cases h : getConv cid <;> simp [h]

/-- Claim C3 counterexample: on an `error` frame the in-progress provisional
entry is neither removed nor replaced in place — it stays in the transcript
unchanged and a separate error entry is appended (the transcript grows from
2 to 3 entries). -/
theorem error_frame_keeps_provisional_counterexample :
    ((⟨"assistant-5", Role.assistant, "partial", 5⟩ : Message) ∈
      (handleError 9 "boom"
        ⟨[⟨"user-1", Role.user, "hi", 1⟩, ⟨"assistant-5", Role.assistant, "partial", 5⟩],
          true, "partial", "assistant-5", some true, ["hi"]⟩).messages) ∧
    (handleError 9 "boom"
        ⟨[⟨"user-1", Role.user, "hi", 1⟩, ⟨"assistant-5", Role.assistant, "partial", 5⟩],
          true, "partial", "assistant-5", some true, ["hi"]⟩).messages.length = 3 := by
  decide

/-- Claim C3 amended: on an `error` frame the provisional entry is kept
unchanged in the transcript and a visible error placeholder entry is
appended after it; the provisional slot is cleared, so any later `delta`
appends a fresh entry instead of mutating the old provisional one. -/
theorem error_frame_appends_placeholder (now : Nat) (msg : String) (s : ChatState) :
    handleError now msg s =
      { s with
        messages := s.messages ++
          [⟨"error-" ++ toString now, Role.assistant, "❌ エラーが発生しました: " ++ msg, now⟩],
        isStreaming := false, currentMessage := "", currentMessageId := "" } ∧
    (∀ now2 c,
      (handleDelta now2 c (handleError now msg s)).messages.length
        = s.messages.length + 2) := by
  refine ⟨rfl, ?_⟩
  intro now2 c
  have hne : ¬ ("error-" ++ toString now = "") := by
    intro h
    have hlen := congrArg String.length h
    rw [String.length_append] at hlen
    have h6 : ("error-" : String).length = 6 := rfl
    have h0 : ("" : String).length = 0 := rfl
    rw [h6, h0] at hlen
    omega
  simp [handleDelta, handleError, List.getLast?_concat, hne, List.length_append]

/-- Claim C8: in the client, `sendMessage` called while a turn is streaming
is rejected outright — the state (transcript, refs, sent-frame log) is
unchanged and no frame is sent. -/
theorem sendMessage_noop_while_streaming (now : Nat) (text : String) (s : ChatState)
    (h : s.isStreaming = true) : sendMessage now text s = s := by
  unfold sendMessage
  simp [h]

/-- Witness for C8 at a concrete streaming state. -/
theorem sendMessage_noop_while_streaming_witness :
    sendMessage 7 "hello" ⟨[], true, "", "", some true, []⟩
      = ⟨[], true, "", "", some true, []⟩ :=
  sendMessage_noop_while_streaming 7 "hello" ⟨[], true, "", "", some true, []⟩ rfl

/-- Claim C9: for whitespace-only input, `sendMessage` is a no-op (no frame
sent, no user message appended, streaming flag unchanged), and the InputBox
`handleSend` guard likewise hands nothing to `onSend`. -/
theorem blank_input_send_is_noop (now : Nat) (text : String) (s : ChatState)
    (input : String) (disabled : Bool)
    (htext : jsTrim text = "") (hinput : jsTrim input = "") :
    sendMessage now text s = s ∧ handleSend input disabled = none := by
  constructor
  · unfold sendMessage
    simp [htext]
  · unfold handleSend
    simp [hinput]

/-- Witness for C9 on whitespace-only inputs. -/
theorem blank_input_send_is_noop_witness :
    sendMessage 4 "   " ⟨[], false, "", "", some true, []⟩
        = ⟨[], false, "", "", some true, []⟩ ∧
      handleSend "  " false = none :=
  blank_input_send_is_noop 4 "   " ⟨[], false, "", "", some true, []⟩ "  " false
    (by decide) (by decide)

/-- Claim C10: the interceptor attaches a bearer header exactly when a
truthy access token is stored and the recorded expiry (here: any stored
expiry string parsing to `e`) has not passed; and with no stored expiry the
token counts as expired, so no header is attached. -/
theorem bearer_header_iff_token_fresh (st : LocalStore) (now : Int) (s : String) (e : Int) :
    (st.token_expires_at = some s → jsParseInt s = some e →
      ((attachAuthHeader st now).isSome = true ↔
        ((∃ t, st.access_token = some t ∧ t ≠ "") ∧ now ≤ e))) ∧
    (st.token_expires_at = none → attachAuthHeader st now = none) := by
  constructor
  · intro hs hp
    have hsne : s ≠ "" := by
      intro h
      subst h
      have hnone : jsParseInt "" = none := rfl
      rw [hnone] at hp
      exact Option.noConfusion hp
    have hexp : isTokenExpired st now = decide (now > e) := by
      simp only [isTokenExpired, hs, if_neg hsne, hp]
    cases hat : st.access_token with
    | none => simp [attachAuthHeader, hat]
    | some t =>
      by_cases ht : t = ""
      · subst ht
        simp [attachAuthHeader, hat]
      · by_cases hgt : e < now
        · have hexp' : isTokenExpired st now = true := by
            rw [hexp]; simpa using hgt
          simp [attachAuthHeader, hat, ht, hexp']
          omega
        · have hexp' : isTokenExpired st now = false := by
            rw [hexp]; simpa using hgt
          simp [attachAuthHeader, hat, ht, hexp']
          omega
  · intro h
    cases hat : st.access_token with
    | none => simp [attachAuthHeader, hat]
    | some t =>
      by_cases ht : t = ""
      · simp [attachAuthHeader, hat, ht]
      · simp [attachAuthHeader, hat, ht, isTokenExpired, h]

/-- Witness for C10: a stored token with expiry 100 at current time 50
yields a header. -/
theorem bearer_header_iff_token_fresh_witness :
    (attachAuthHeader ⟨some "tok", some "100"⟩ 50).isSome = true :=
  ((bearer_header_iff_token_fresh ⟨some "tok", some "100"⟩ 50 "100" 100).1 rfl
      (by decide)).mpr
    ⟨⟨"tok", rfl, by decide⟩, by decide⟩

/-- Claim C7: once `load_yaml` has answered for a filename, asking again is
idempotent — any later call returns the structurally identical result and
consults neither the external environment nor the filesystem nor the
reference resolver again (the second call is independent of all three), and
no cache entry is ever dropped (no implicit invalidation). -/
theorem load_yaml_idempotent_cached
    (resolveRefs : String → String) (fs : String → Option String)
    (env : String → Option String) (self : ConfigLoader) (filename : String)
    (config : String) (self' : ConfigLoader)
    (h : load_yaml resolveRefs fs env self filename = some (config, self')) :
    (∀ (resolveRefs2 : String → String) (fs2 : String → Option String)
        (env2 : String → Option String),
      load_yaml resolveRefs2 fs2 env2 self' filename = some (config, self')) ∧
    (∀ entry, entry ∈ self.cache → entry ∈ self'.cache) := by
  unfold load_yaml at h
  cases hcc : self.cache.lookup filename with
  | some c =>
    rw [hcc] at h
    simp only [Option.some.injEq, Prod.mk.injEq] at h
    obtain ⟨hc, hself⟩ := h
    subst hc
    subst hself
    constructor
    · intro rf2 fs2 env2
      unfold load_yaml
      rw [hcc]
    · intro entry he
      exact he
  | none =>
    rw [hcc] at h
    cases hfs : fs filename with
    | none =>
      rw [hfs] at h
      exact Option.noConfusion h
    | some raw =>
      rw [hfs] at h
      simp only [Option.some.injEq, Prod.mk.injEq] at h
      obtain ⟨hc, hself⟩ := h
      constructor
      · intro rf2 fs2 env2
        unfold load_yaml
        rw [← hself]
        simp only [List.lookup_cons_self]
        rw [hc]
      · intro entry he
        rw [← hself]
        exact List.mem_cons_of_mem _ he

/-- Witness for C7: after a first, cache-filling call, a second call with a
different resolver, filesystem and environment still returns the identical
cached result. -/
theorem load_yaml_idempotent_cached_witness :
    load_yaml (fun _ => "Z") (fun _ => none) (fun _ => some "OTHER")
        ⟨[("app.config.yaml", "x: 1")]⟩ "app.config.yaml"
      = some ("x: 1", ⟨[("app.config.yaml", "x: 1")]⟩) :=
  (load_yaml_idempotent_cached id
      (fun fn => if fn = "app.config.yaml" then some "x: 1" else none)
      (fun _ => none) ⟨[]⟩ "app.config.yaml" "x: 1"
      ⟨[("app.config.yaml", "x: 1")]⟩ (by decide)).1
    (fun _ => "Z") (fun _ => none) (fun _ => some "OTHER")

lemma strLeChars_total : ∀ as bs : List Char, strLeChars as bs = true ∨ strLeChars bs as = true := by
  intro as
  induction as with
  | nil => intro bs; left; rfl
  | cons a as ih =>
    intro bs
    cases bs with
    | nil => right; rfl
    | cons b bs =>
      by_cases hab : a = b
      · subst hab
        rcases ih bs with h | h
        · left; simpa [strLeChars] using h
        · right; simpa [strLeChars] using h
      · have hba : ¬b = a := fun hh => hab hh.symm
        rcases lt_or_gt_of_ne hab with h | h
        · left; simp [strLeChars, hab, h]
        · right; simp [strLeChars, hba, h]

lemma strLeChars_trans : ∀ as bs cs : List Char,
    strLeChars as bs = true → strLeChars bs cs = true → strLeChars as cs = true := by
  intro as
  induction as with
  | nil => intro bs cs _ _; rfl
  | cons a as ih =>
    intro bs cs h1 h2
    cases bs with
    | nil => simp [strLeChars] at h1
    | cons b bs =>
      cases cs with
      | nil => simp [strLeChars] at h2
      | cons c cs =>
        by_cases hab : a = b <;> by_cases hbc : b = c
        · subst hab; subst hbc
          simp only [strLeChars, if_pos rfl] at h1 h2 ⊢
          exact ih bs cs h1 h2
        · subst hab
          simp only [strLeChars, if_pos rfl, if_neg hbc] at h2 ⊢
          exact h2
        · subst hbc
          simp only [strLeChars, if_pos rfl, if_neg hab] at h1 ⊢
          exact h1
        · simp only [strLeChars, if_neg hab, if_neg hbc, decide_eq_true_eq] at h1 h2
          have hac : a < c := lt_trans h1 h2
          simp only [strLeChars, if_neg (ne_of_lt hac), decide_eq_true_eq]
          exact hac

lemma find?_name_eq_of_nodup : ∀ (l : List PyAttr) (a : PyAttr) (n : String),
    (l.map PyAttr.name).Nodup → a ∈ l → a.name = n →
    l.find? (fun x => x.name = n) = some a := by
  intro l
  induction l with
  | nil => intro a n _ ha _; exact absurd ha (List.not_mem_nil a)
  | cons b bs ih =>
    intro a n hnd ha hname
    by_cases hb : b.name = n
    · have hab : a = b := by
        cases List.mem_cons.mp ha with
        | inl h => exact h
        | inr h =>
          exfalso
          have hmem : b.name ∈ bs.map PyAttr.name := by
            rw [hb, ← hname]
            exact List.mem_map.mpr ⟨a, h, rfl⟩
          exact (List.nodup_cons.mp (by simpa using hnd)).1 hmem
      subst hab
      exact List.find?_cons_of_pos bs (by simpa using hb)
    · have hmem : a ∈ bs := by
        cases List.mem_cons.mp ha with
        | inl h => exact absurd (h ▸ hname) hb
        | inr h => exact h
      rw [List.find?_cons_of_neg bs (by simpa using hb)]
      exact ih a n (List.nodup_cons.mp (by simpa using hnd)).2 hmem hname

/-- Claim C4 counterexample: for a domain whose bundle declares
capabilities `a` and `b` while the tool module resolves only `a`, the loader
returns `(["a"], [])` — no warning is recorded for the omitted capability
(the source records no warnings at all, and the returned list is computed by
module introspection, not from the declared names). -/
theorem tool_loader_no_warning_counterexample :
    load_tools_for_domain
        (fun n => if n = "app.domains.d.tools" then some ⟨[⟨"a", true⟩]⟩ else none) "d"
      = (["a"], []) := by
  decide

/-- Claim C4 amended: loading never raises a hard error — a module that
fails to import yields the empty capability list, a successful one yields exactly the
module's public callable attributes (independently of any declared
capability names), and no warnings are ever recorded. -/
theorem load_tools_membership
    (modules : String → Option PyModule) (domain_id : String) :
    ((load_tools_for_domain modules domain_id).2 = []) ∧
    (modules ("app.domains." ++ pyStrReplace domain_id "-" "_" ++ ".tools") = none →
      (load_tools_for_domain modules domain_id).1 = []) ∧
    (∀ m, modules ("app.domains." ++ pyStrReplace domain_id "-" "_" ++ ".tools") = some m →
      (m.attrs.map PyAttr.name).Nodup →
      (∀ n, n ∈ (load_tools_for_domain modules domain_id).1 ↔
        ∃ a, a ∈ m.attrs ∧ a.name = n ∧ a.callable = true ∧
          pyStartsWithUnderscore n = false)) := by
  refine ⟨?_, ?_, ?_⟩
  · cases h : modules ("app.domains." ++ pyStrReplace domain_id "-" "_" ++ ".tools") <;>
      simp [load_tools_for_domain, h]
  · intro h
    simp [load_tools_for_domain, h]
  · intro m hm hnd n
    simp only [load_tools_for_domain, hm]
    rw [List.mem_filter]
    constructor
    · rintro ⟨hmem, hp⟩
      rw [Bool.and_eq_true] at hp
      obtain ⟨hc, hu⟩ := hp
      unfold getattrCallable at hc
      cases hf : m.attrs.find? (fun a => a.name = n) with
      | none => rw [hf] at hc; exact absurd hc (by simp)
      | some a =>
        rw [hf] at hc
        have hmema := List.mem_of_find?_eq_some hf
        have hnamea : a.name = n := by simpa using List.find?_some hf
        exact ⟨a, hmema, hnamea, hc, by simpa using hu⟩
    · rintro ⟨a, hmema, hnamea, hcall, hunder⟩
      rw [Bool.and_eq_true]
      refine ⟨?_, ?_, ?_⟩
      · unfold pyDir
        rw [(List.perm_insertionSort _ _).mem_iff]
        exact List.mem_map.mpr ⟨a, hmema, hnamea⟩
      · unfold getattrCallable
        rw [find?_name_eq_of_nodup m.attrs a n hnd hmema hnamea]
        exact hcall
      · simpa using hunder

/-- Witness for C4 at a concrete registry resolving one public callable. -/
theorem load_tools_membership_witness :
    "a" ∈ (load_tools_for_domain
        (fun n => if n = "app.domains.d.tools" then some ⟨[⟨"a", true⟩]⟩ else none) "d").1 :=
  ((load_tools_membership
      (fun n => if n = "app.domains.d.tools" then some ⟨[⟨"a", true⟩]⟩ else none) "d").2.2
    ⟨[⟨"a", true⟩]⟩ (by decide) (by decide) "a").mpr
    ⟨⟨"a", true⟩, by decide, rfl, rfl, by decide⟩

/-- Claim C5 counterexample: a module whose attributes are declared in the
order `b`, `a` yields the tool list `["a", "b"]` — `dir(module)` sorts, so
the returned order is alphabetical, not declaration (insertion) order. -/
theorem tool_order_alphabetical_counterexample :
    (load_tools_for_domain
        (fun n => if n = "app.domains.e.tools" then some ⟨[⟨"b", true⟩, ⟨"a", true⟩]⟩ else none)
        "e").1 = ["a", "b"] ∧
    (([⟨"b", true⟩, ⟨"a", true⟩] : List PyAttr).map PyAttr.name) = ["b", "a"] ∧
    (["a", "b"] : List String) ≠ ["b", "a"] := by
  decide

/-- Claim C5 amended: the capability list returned by the loader is sorted
alphabetically by name (code-point order, as Python's `dir`), deterministic
but independent of the declaration order. -/
theorem tool_list_alphabetically_sorted
    (modules : String → Option PyModule) (domain_id : String) :
    List.Sorted (fun a b => pyStrLe a b = true)
      (load_tools_for_domain modules domain_id).1 := by
  cases h : modules ("app.domains." ++ pyStrReplace domain_id "-" "_" ++ ".tools") with
  | none =>
    simp [load_tools_for_domain, h]
  | some m =>
    simp only [load_tools_for_domain, h]
    have hsorted : List.Sorted (fun a b => pyStrLe a b = true) (pyDir m) :=
      @List.sorted_insertionSort String (fun a b => pyStrLe a b = true)
        (fun _ _ => inferInstance)
        ⟨fun a b => strLeChars_total a.data b.data⟩
        ⟨fun a b c => strLeChars_trans a.data b.data c.data⟩
        (m.attrs.map PyAttr.name)
    exact hsorted.filter _

/-- Claim C6 counterexample: with `VAR` unset, `_expand_env_vars` does not
leave the placeholder untouched — `os.getenv(match, match)` defaults to the
bare variable name, so the wrapper is stripped and the output differs from
the input. -/
theorem unresolved_placeholder_stripped_counterexample :
    expand_env_vars (fun _ => none) "a $\x7bVAR\x7d b" = "a VAR b" ∧
    ("a VAR b" : String) ≠ "a $\x7bVAR\x7d b" := by
  decide


lemma findPlaceholdersAux_nilList (f : Nat) : findPlaceholdersAux f [] = [] := by
  cases f <;> rfl

lemma replaceAllAux_nilList (pat rep : List Char) (f : Nat) :
    replaceAllAux pat rep f [] = [] := by
  cases f <;> rfl

lemma takeWhile_append_stop (nm rest : List Char) (hnb : ∀ c ∈ nm, c ≠ '\x7d') :
    (nm ++ '\x7d' :: rest).takeWhile (fun ch => ch ≠ '\x7d') = nm := by
  induction nm with
  | nil => simp [List.takeWhile_cons]
  | cons a nm ih =>
    have ha : a ≠ '\x7d' := hnb a (by simp)
    have ih2 := ih (fun c hc => hnb c (by simp [hc]))
    simp only [List.cons_append, List.takeWhile_cons]
    simp [ha]
    simpa using ih2

lemma findPlaceholdersAux_step_skip (f : Nat) (c : Char) (rest : List Char) (hc : c ≠ '$') :
    findPlaceholdersAux (f + 1) (c :: rest) = findPlaceholdersAux f rest := by
  simp only [findPlaceholdersAux, if_neg hc]

lemma findPlaceholdersAux_step_capture (f : Nat) (nm rest : List Char)
    (hne : nm ≠ []) (hnb : ∀ c ∈ nm, c ≠ '\x7d') :
    findPlaceholdersAux (f + 1) ('$' :: '\x7b' :: (nm ++ '\x7d' :: rest)) =
      ⟨nm⟩ :: findPlaceholdersAux f rest := by
  have htw := takeWhile_append_stop nm rest hnb
  have hdr : (nm ++ '\x7d' :: rest).drop nm.length = '\x7d' :: rest := List.drop_left nm _
  simp only [findPlaceholdersAux]
  rw [htw]
  simp [hne, hdr]

lemma findPlaceholdersAux_skipAll (pre : List Char) :
    ∀ (f : Nat) (rest : List Char), (∀ c ∈ pre, c ≠ '$') →
    findPlaceholdersAux (pre.length + f) (pre ++ rest) = findPlaceholdersAux f rest := by
  induction pre with
  | nil => intro f rest _; simp
  | cons a pre ih =>
    intro f rest h
    have ha : a ≠ '$' := h a (by simp)
    have hlen : (a :: pre).length + f = (pre.length + f) + 1 := by
      simp [List.length_cons]; omega
    rw [List.cons_append, hlen, findPlaceholdersAux_step_skip _ a _ ha]
    exact ih f rest (fun c hc => h c (by simp [hc]))

lemma findPlaceholdersAux_renderTemplate :
    ∀ (ps : List (String × String)) (tail : String) (f : Nat),
    (∀ p ∈ ps, p.2 ≠ "" ∧ '\x7d' ∉ p.2.data) →
    (∀ p ∈ ps, '$' ∉ p.1.data) → '$' ∉ tail.data →
    findPlaceholdersAux ((renderTemplate ps tail).data.length + f)
      (renderTemplate ps tail).data = ps.map Prod.snd := by
  intro ps
  induction ps with
  | nil =>
    intro tail f _ _ htail
    have hskip := findPlaceholdersAux_skipAll tail.data f []
      (fun c hc hh => htail (hh ▸ hc))
    simpa [renderTemplate, findPlaceholdersAux_nilList] using hskip
  | cons p ps ih =>
    obtain ⟨lit, nm⟩ := p
    intro tail f hnames hlits htail
    have hdata : (renderTemplate ((lit, nm) :: ps) tail).data =
        lit.data ++ ('$' :: '\x7b' :: (nm.data ++ '\x7d' :: (renderTemplate ps tail).data)) := by
      simp [renderTemplate, String.data_append]
    have hnm := hnames (lit, nm) (by simp)
    have hnm_ne : nm.data ≠ [] := by
      intro hh
      exact hnm.1 (String.ext hh)
    have hnm_nb : ∀ c ∈ nm.data, c ≠ '\x7d' := fun c hc hh => hnm.2 (hh ▸ hc)
    rw [hdata]
    have harith : (lit.data ++ ('$' :: '\x7b' ::
          (nm.data ++ '\x7d' :: (renderTemplate ps tail).data))).length + f =
        lit.data.length +
          (((nm.data.length + (renderTemplate ps tail).data.length + 2 + f)) + 1) := by
      simp [List.length_append, List.length_cons]
      omega
    rw [harith, findPlaceholdersAux_skipAll lit.data _ _
      (fun c hc hh => hlits (lit, nm) (by simp) (hh ▸ hc)),
      findPlaceholdersAux_step_capture _ nm.data _ hnm_ne hnm_nb]
    have harith2 : nm.data.length + (renderTemplate ps tail).data.length + 2 + f =
        (renderTemplate ps tail).data.length + (nm.data.length + 2 + f) := by omega
    rw [harith2, ih tail (nm.data.length + 2 + f)
      (fun q hq => hnames q (by simp [hq])) (fun q hq => hlits q (by simp [hq])) htail]
    simp

lemma findPlaceholders_renderTemplate (ps : List (String × String)) (tail : String)
    (h : templateOk ps tail) :
    findPlaceholders (renderTemplate ps tail) = ps.map Prod.snd := by
  obtain ⟨hps, htail, _⟩ := h
  have hmain := findPlaceholdersAux_renderTemplate ps tail 0
    (fun p hp => ⟨(hps p hp).2.1, (hps p hp).2.2.2⟩) (fun p hp => (hps p hp).1) htail
  simpa [findPlaceholders] using hmain

lemma replaceAllAux_fuel : ∀ (f1 : Nat) (cs : List Char) (f2 : Nat) (pat rep : List Char),
    cs.length ≤ f1 → cs.length ≤ f2 →
    replaceAllAux pat rep f1 cs = replaceAllAux pat rep f2 cs := by
  intro f1
  induction f1 with
  | zero =>
    intro cs f2 pat rep h1 _
    have hcs : cs = [] := List.length_eq_zero.mp (Nat.le_zero.mp h1)
    subst hcs
    simp [replaceAllAux_nilList]
  | succ f ih =>
    intro cs f2 pat rep h1 h2
    cases cs with
    | nil => simp [replaceAllAux_nilList]
    | cons c rest =>
      cases f2 with
      | zero => simp at h2
      | succ f2' =>
        simp only [replaceAllAux]
        by_cases hcond : pat ≠ [] ∧ pat.isPrefixOf (c :: rest)
        · rw [if_pos hcond, if_pos hcond]
          congr 1
          have hplen : 1 ≤ pat.length := by
            cases pat with
            | nil => exact absurd rfl hcond.1
            | cons q qs => simp
          apply ih
          · simp only [List.length_drop, List.length_cons] at h1 ⊢
            omega
          · simp only [List.length_drop, List.length_cons] at h2 ⊢
            omega
        · rw [if_neg hcond, if_neg hcond]
          congr 1
          apply ih
          · simp only [List.length_cons] at h1; omega
          · simp only [List.length_cons] at h2; omega

lemma replaceAllAux_step_noMatch (pat rep : List Char) (f : Nat) (c : Char) (rest : List Char)
    (h : ¬(pat ≠ [] ∧ pat.isPrefixOf (c :: rest))) :
    replaceAllAux pat rep (f + 1) (c :: rest) = c :: replaceAllAux pat rep f rest := by
  simp only [replaceAllAux, if_neg h]

lemma replaceAllAux_skipAll (pat' rep : List Char) : ∀ (pre rest : List Char),
    (∀ c ∈ pre, c ≠ '$') →
    replaceAllAux ('$' :: pat') rep (pre ++ rest).length (pre ++ rest) =
      pre ++ replaceAllAux ('$' :: pat') rep rest.length rest := by
  intro pre
  induction pre with
  | nil => intro rest _; simp
  | cons a pre ih =>
    intro rest h
    have ha : a ≠ '$' := h a (by simp)
    have hpf : ¬(('$' :: pat') ≠ [] ∧ ('$' :: pat').isPrefixOf (a :: (pre ++ rest))) := by
      intro hcon
      have hpre := hcon.2
      rw [List.isPrefixOf_cons₂] at hpre
      have hbeq : ('$' == a) = true := by
        cases hb : ('$' == a) with
        | false => rw [hb] at hpre; simp at hpre
        | true => rfl
      exact ha (beq_iff_eq.mp hbeq).symm
    rw [List.cons_append,
      show (a :: (pre ++ rest)).length = ((pre ++ rest).length) + 1 from rfl,
      replaceAllAux_step_noMatch _ _ _ _ _ hpf,
      ih rest (fun c hc => h c (by simp [hc]))]
    rfl

lemma replaceAllAux_matchHead (pat suf rep : List Char) (hne : pat ≠ []) :
    replaceAllAux pat rep (pat ++ suf).length (pat ++ suf) =
      rep ++ replaceAllAux pat rep suf.length suf := by
  cases pat with
  | nil => exact absurd rfl hne
  | cons p pat' =>
    have hpf : (p :: pat').isPrefixOf ((p :: pat') ++ suf) = true :=
      List.isPrefixOf_iff_prefix.mpr (List.prefix_append _ _)
    rw [List.cons_append,
      show (p :: (pat' ++ suf)).length = ((pat' ++ suf).length) + 1 from rfl]
    simp only [replaceAllAux]
    rw [if_pos ⟨by simp, by rw [← List.cons_append]; exact hpf⟩]
    congr 1
    have hdrop : (p :: (pat' ++ suf)).drop (p :: pat').length = suf := by
      rw [← List.cons_append]
      exact List.drop_left _ _
    rw [hdrop]
    apply replaceAllAux_fuel
    · simp [List.length_append]
    · exact Nat.le_refl _

lemma isPrefixOf_placeholder_false : ∀ (m1 m2 ys : List Char), m1 ≠ m2 →
    (∀ c ∈ m1, c ≠ '\x7d') → (∀ c ∈ m2, c ≠ '\x7d') →
    (m1 ++ ['\x7d']).isPrefixOf (m2 ++ '\x7d' :: ys) = false := by
  intro m1
  induction m1 with
  | nil =>
    intro m2 ys hne _ h2
    cases m2 with
    | nil => exact absurd rfl hne
    | cons b m2' =>
      have hb : ('\x7d' == b) = false :=
        beq_eq_false_iff_ne.mpr (fun hh => h2 b (by simp) hh.symm)
      simp [List.isPrefixOf_cons₂, hb]
  | cons a m1' ih =>
    intro m2 ys hne h1 h2
    cases m2 with
    | nil =>
      have ha : (a == '\x7d') = false :=
        beq_eq_false_iff_ne.mpr (h1 a (by simp))
      simp [List.isPrefixOf_cons₂, ha]
    | cons b m2' =>
      by_cases hab : a = b
      · subst hab
        have hne' : m1' ≠ m2' := fun hh => hne (by rw [hh])
        have hrec := ih m2' ys hne' (fun c hc => h1 c (by simp [hc]))
          (fun c hc => h2 c (by simp [hc]))
        simp [List.isPrefixOf_cons₂, hrec]
      · have hb : (a == b) = false := beq_eq_false_iff_ne.mpr hab
        simp [List.isPrefixOf_cons₂, hb]

lemma replaceAllAux_skipForeign (m1 m2 rest rep : List Char)
    (hne : m1 ≠ m2) (h1 : ∀ c ∈ m1, c ≠ '\x7d') (h2 : ∀ c ∈ m2, c ≠ '\x7d')
    (h2d : ∀ c ∈ m2, c ≠ '$') :
    replaceAllAux ('$' :: '\x7b' :: (m1 ++ ['\x7d'])) rep
        (('$' :: '\x7b' :: (m2 ++ '\x7d' :: rest)).length)
        ('$' :: '\x7b' :: (m2 ++ '\x7d' :: rest)) =
      '$' :: '\x7b' :: (m2 ++ '\x7d' ::
        replaceAllAux ('$' :: '\x7b' :: (m1 ++ ['\x7d'])) rep rest.length rest) := by
  have hpf : ¬(('$' :: '\x7b' :: (m1 ++ ['\x7d'])) ≠ [] ∧
      ('$' :: '\x7b' :: (m1 ++ ['\x7d'])).isPrefixOf
        ('$' :: '\x7b' :: (m2 ++ '\x7d' :: rest))) := by
    intro hcon
    have hpre := hcon.2
    rw [List.isPrefixOf_cons₂, List.isPrefixOf_cons₂] at hpre
    have hfalse := isPrefixOf_placeholder_false m1 m2 rest hne h1 h2
    simp [hfalse] at hpre
  have hlen : ('$' :: '\x7b' :: (m2 ++ '\x7d' :: rest)).length =
      (('\x7b' :: (m2 ++ '\x7d' :: rest)).length) + 1 := by simp
  rw [hlen, replaceAllAux_step_noMatch _ _ _ _ _ hpf]
  have hsplit : '\x7b' :: (m2 ++ '\x7d' :: rest) = ('\x7b' :: (m2 ++ ['\x7d'])) ++ rest := by
    simp
  have hpre_free : ∀ c ∈ ('\x7b' :: (m2 ++ ['\x7d'])), c ≠ '$' := by
    intro c hc
    simp at hc
    rcases hc with h | h | h
    · subst h; decide
    · exact h2d c h
    · subst h; decide
  rw [hsplit, replaceAllAux_skipAll _ _ _ _ hpre_free]
  simp

lemma placeholder_pattern_data (m : String) :
    ("$\x7b" ++ m ++ "\x7d").data = '$' :: '\x7b' :: (m.data ++ ['\x7d']) := by
  simp [String.data_append, List.append_assoc]

lemma replaceAllAux_noOccur (m : String) (rep : List Char) :
    ∀ (ps : List (String × String)) (tail : String),
    (∀ p ∈ ps, '$' ∉ p.1.data ∧ '$' ∉ p.2.data ∧ '\x7d' ∉ p.2.data) →
    '$' ∉ tail.data → ('\x7d' ∉ m.data) → m ∉ ps.map Prod.snd →
    replaceAllAux ('$' :: '\x7b' :: (m.data ++ ['\x7d'])) rep
        ((renderTemplate ps tail).data.length) (renderTemplate ps tail).data =
      (renderTemplate ps tail).data := by
  intro ps
  induction ps with
  | nil =>
    intro tail _ htail _ _
    have hskip := replaceAllAux_skipAll ('\x7b' :: (m.data ++ ['\x7d'])) rep tail.data []
      (fun c hc hh => htail (hh ▸ hc))
    simpa [renderTemplate, replaceAllAux_nilList] using hskip
  | cons p ps ih =>
    obtain ⟨lit, nm⟩ := p
    intro tail hps htail hm hnotin
    have hdata : (renderTemplate ((lit, nm) :: ps) tail).data =
        lit.data ++ (('$' :: '\x7b' :: (nm.data ++ '\x7d' :: (renderTemplate ps tail).data))) := by
      simp [renderTemplate, String.data_append]
    have hp := hps (lit, nm) (by simp)
    have hmnm : m.data ≠ nm.data := by
      intro hh
      exact hnotin (by
        rw [List.map_cons]
        exact (String.ext hh) ▸ List.mem_cons_self _ _)
    rw [hdata,
      replaceAllAux_skipAll _ _ lit.data _ (fun c hc hh => hp.1 (hh ▸ hc)),
      replaceAllAux_skipForeign m.data nm.data _ rep hmnm
        (fun c hc hh => hm (hh ▸ hc))
        (fun c hc hh => hp.2.2 (hh ▸ hc))
        (fun c hc hh => hp.2.1 (hh ▸ hc)),
      ih tail (fun q hq => hps q (by simp [hq])) htail hm
        (fun hh => hnotin (by rw [List.map_cons]; exact List.mem_cons_of_mem _ hh))]

lemma expand_fold : ∀ (ps : List (String × String)) (done tail : String)
    (env : String → Option String),
    (∀ p ∈ ps, '$' ∉ p.1.data ∧ p.2 ≠ "" ∧ '$' ∉ p.2.data ∧ '\x7d' ∉ p.2.data) →
    '$' ∉ tail.data → (ps.map Prod.snd).Nodup →
    (∀ p ∈ ps, '$' ∉ (pyGetenv env p.2 p.2).data) →
    '$' ∉ done.data →
    (ps.map Prod.snd).foldl
      (fun obj m => pyStrReplace obj ("$\x7b" ++ m ++ "\x7d") (pyGetenv env m m))
      (done ++ renderTemplate ps tail)
    = done ++ expandTemplate env ps tail := by
  intro ps
  induction ps with
  | nil => intro done tail env _ _ _ _ _; rfl
  | cons p ps ih =>
    obtain ⟨lit, m⟩ := p
    intro done tail env hps htail hnd henv hdone
    have hm := hps (lit, m) (by simp)
    have hval : '$' ∉ (pyGetenv env m m).data := henv (lit, m) (by simp)
    have hnd' : (m :: ps.map Prod.snd).Nodup := hnd
    obtain ⟨hnotin, hndtail⟩ := List.nodup_cons.mp hnd'
    have hprefree : ∀ c ∈ done.data ++ lit.data, c ≠ '$' := by
      intro c hc hh
      subst hh
      rcases List.mem_append.mp hc with h | h
      · exact hdone h
      · exact hm.1 h
    have hstep : pyStrReplace (done ++ renderTemplate ((lit, m) :: ps) tail)
        ("$\x7b" ++ m ++ "\x7d") (pyGetenv env m m)
        = (done ++ (lit ++ pyGetenv env m m)) ++ renderTemplate ps tail := by
      have hsdata : (done ++ renderTemplate ((lit, m) :: ps) tail).data =
          (done.data ++ lit.data) ++
            (('$' :: '\x7b' :: (m.data ++ ['\x7d'])) ++ (renderTemplate ps tail).data) := by
        simp [String.data_append, renderTemplate, List.append_assoc]
      show (⟨replaceAllAux ("$\x7b" ++ m ++ "\x7d").data (pyGetenv env m m).data
          (done ++ renderTemplate ((lit, m) :: ps) tail).data.length
          (done ++ renderTemplate ((lit, m) :: ps) tail).data⟩ : String) = _
      rw [placeholder_pattern_data m, hsdata,
        replaceAllAux_skipAll _ _ (done.data ++ lit.data) _ hprefree,
        replaceAllAux_matchHead _ _ _ (by simp),
        replaceAllAux_noOccur m (pyGetenv env m m).data ps tail
          (fun q hq => ⟨(hps q (by simp [hq])).1, (hps q (by simp [hq])).2.2.1,
            (hps q (by simp [hq])).2.2.2⟩)
          htail (fun hh => hm.2.2.2 hh) hnotin]
      apply String.ext
      simp [String.data_append, List.append_assoc]
    have hfold : (((lit, m) :: ps).map Prod.snd).foldl
        (fun obj m => pyStrReplace obj ("$\x7b" ++ m ++ "\x7d") (pyGetenv env m m))
        (done ++ renderTemplate ((lit, m) :: ps) tail) =
        (ps.map Prod.snd).foldl
          (fun obj m => pyStrReplace obj ("$\x7b" ++ m ++ "\x7d") (pyGetenv env m m))
          (pyStrReplace (done ++ renderTemplate ((lit, m) :: ps) tail)
            ("$\x7b" ++ m ++ "\x7d") (pyGetenv env m m)) := rfl
    rw [hfold, hstep,
      ih (done ++ (lit ++ pyGetenv env m m)) tail env
        (fun q hq => hps q (by simp [hq])) htail hndtail
        (fun q hq => henv q (by simp [hq]))
        (by
          intro hh
          simp only [String.data_append] at hh
          rcases List.mem_append.mp hh with h | h
          · exact hdone h
          rcases List.mem_append.mp h with h2 | h2
          · exact hm.1 h2
          · exact hval h2)]
    show _ = done ++ (lit ++ pyGetenv env m m ++ expandTemplate env ps tail)
    simp [String.append_assoc]

/-- Claim C6 amended: during the environment-variable pass, every
placeholder whose variable is provided is substituted with the
runtime-provided value, and every placeholder whose variable is unresolved
is replaced by the bare variable name (its wrapper stripped); no error is
raised in either case.  Proved for every document interleaving literal
segments and placeholders, with arbitrarily many placeholders, under the
hygiene conditions of `templateOk` (literals and replacement values carry no
placeholder syntax; placeholder names are distinct). -/
theorem env_var_expansion_behavior (env : String → Option String)
    (ps : List (String × String)) (tail : String)
    (h : templateOk ps tail) (he : envOk env ps) :
    expand_env_vars env (renderTemplate ps tail) = expandTemplate env ps tail := by
  obtain ⟨hps, htail, hnd⟩ := h
  unfold expand_env_vars
  rw [findPlaceholders_renderTemplate ps tail ⟨hps, htail, hnd⟩]
  have hmain := expand_fold ps "" tail env hps htail hnd he (by simp)
  rw [String.empty_append] at hmain
  rw [hmain, String.empty_append]

/-- Witness for C6 on a two-placeholder document: `X` is provided (and
substituted), `Y` is unresolved (and stripped to its bare name). -/
theorem env_var_expansion_behavior_witness :
    expand_env_vars (fun n => if n = "X" then some "xx" else none)
        "a $\x7bX\x7d mid $\x7bY\x7d b" = "a xx mid Y b" := by
  have h := env_var_expansion_behavior (fun n => if n = "X" then some "xx" else none)
    [("a ", "X"), (" mid ", "Y")] " b"
    (by unfold templateOk; decide) (by unfold envOk; decide)
  have hr : renderTemplate [("a ", "X"), (" mid ", "Y")] " b"
      = "a $\x7bX\x7d mid $\x7bY\x7d b" := by decide
  have hx : expandTemplate (fun n => if n = "X" then some "xx" else none)
      [("a ", "X"), (" mid ", "Y")] " b" = "a xx mid Y b" := by decide
  rw [hr, hx] at h
  exact h
